import Mathlib

/-!
# Shallow embedding of the evmone baseline interpreter core

This file embeds the code of `lib/evmone/baseline.cpp` — the baseline EVM
dispatch loop — and proves properties about it.

Modelling conventions:
* EVM words (`uint256`) are `Nat`; code is a `List Nat` of byte values;
  the gas counter (`int64_t gas_left`) is `Int`.
* The per-call scratchpad `ExecutionState` keeps exactly the fields the
  dispatch loop touches: gas, stack (top at the head), memory bytes,
  output window and status.
* The bodies of the generic instructions living in `instructions.hpp`
  (arithmetic, environment, storage, calls, …) are not part of the
  analysed source; the dispatch loop is therefore parametrised by a
  semantic function `sem` standing for those bodies, and theorems assume
  of it only the properties the specification mandates (an instruction
  body never increases `gas_left` beyond its input, never touches the
  output window, and reports failure through its returned status code).
* The per-revision instruction tables (`evmc_get_instruction_names_table`
  and `evmc_get_instruction_metrics_table`) are external data; the loop is
  parametrised by a table `tab` giving definedness, base gas cost and the
  two stack bounds for each opcode byte.
* The dispatch loop itself is fuel-indexed (`Option` result, `none` on
  fuel exhaustion) so that every definition is a computable total
  function; real executions are the `some` results.
-/

/-! ## Opcode constants (standard one-byte EVM numbering) -/

def OP_STOP : Nat := 0x00
def OP_CODESIZE : Nat := 0x38
def OP_POP : Nat := 0x50
def OP_JUMP : Nat := 0x56
def OP_JUMPI : Nat := 0x57
def OP_PC : Nat := 0x58
def OP_GAS : Nat := 0x5a
def OP_JUMPDEST : Nat := 0x5b
def OP_PUSH1 : Nat := 0x60
def OP_PUSH32 : Nat := 0x7f
def OP_RETURN : Nat := 0xf3
def OP_REVERT : Nat := 0xfd
def OP_INVALID : Nat := 0xfe
def OP_SELFDESTRUCT : Nat := 0xff

/-! ## Status codes (`evmc_status_code` values used by the core) -/

inductive StatusCode where
  | SUCCESS
  | REVERT
  | OUT_OF_GAS
  | INVALID_INSTRUCTION
  | UNDEFINED_INSTRUCTION
  | STACK_UNDERFLOW
  | STACK_OVERFLOW
  | BAD_JUMP_DESTINATION
  | INVALID_MEMORY_ACCESS
  | STATIC_MODE_VIOLATION
  deriving DecidableEq, Repr

/-- The halting error statuses: these consume all remaining gas and
return an empty output. -/
def haltingErrors : List StatusCode :=
  [StatusCode.OUT_OF_GAS, StatusCode.INVALID_INSTRUCTION,
   StatusCode.UNDEFINED_INSTRUCTION, StatusCode.STACK_UNDERFLOW,
   StatusCode.STACK_OVERFLOW, StatusCode.BAD_JUMP_DESTINATION,
   StatusCode.INVALID_MEMORY_ACCESS, StatusCode.STATIC_MODE_VIOLATION]

/-! ## Execution state -/

/-- Modelled from the spec: the fields of the per-call `ExecutionState`
(`execution_state.hpp` is not part of the analysed source) that the
dispatch loop reads or writes.  The stack's top is the head of the list;
`memory` is the byte buffer; `status` starts as `SUCCESS` and is set once
on termination. -/
structure ExecutionState where
  gas_left : Int
  stack : List Nat
  memory : List Nat
  output_offset : Nat
  output_size : Nat
  status : StatusCode
  deriving DecidableEq, Repr

/-- Modelled from the spec: the `ExecutionState` as freshly constructed by
`baseline_execute` — empty stack and memory, no output window, status
`SUCCESS` and `gas_left` equal to the message gas. -/
def initialState (msg_gas : Int) : ExecutionState :=
  { gas_left := msg_gas, stack := [], memory := [],
    output_offset := 0, output_size := 0, status := StatusCode.SUCCESS }

/-! ## Instruction tables -/

/-- The per-revision instruction tables the loop consults.  `defined op`
stands for `instruction_names[op] != nullptr`; the other three fields are
the `evmc_instruction_metrics` entries. -/
structure InstrTable where
  defined : Nat → Bool
  gas_cost : Nat → Int
  stack_required : Nat → Int
  stack_change : Nat → Int

/-- The semantics of the generic instruction bodies (`instructions.hpp`),
abstracted: given the opcode and the state after `check_requirements`, the
body returns a status code (as the non-void instruction bodies do) and the
updated state. -/
abbrev InstrSem := Nat → ExecutionState → StatusCode × ExecutionState

/-- Modelled from the spec: the guarantees every generic instruction body
gives the dispatch loop (§4.5, §7): it never increases `gas_left`; when it
succeeds from a non-negative gas balance it leaves `gas_left`
non-negative (dynamic charges are checked before the effect); it never
reports `REVERT` (only the `REVERT` opcode terminates with that status);
and it touches neither the output window nor the status field (those are
written only on termination). -/
def SemFaithful (sem : InstrSem) : Prop :=
  ∀ op s, (sem op s).2.gas_left ≤ s.gas_left ∧
    (0 ≤ s.gas_left → (sem op s).1 = StatusCode.SUCCESS →
      0 ≤ (sem op s).2.gas_left) ∧
    (sem op s).1 ≠ StatusCode.REVERT ∧
    (sem op s).2.output_size = s.output_size ∧
    (sem op s).2.status = s.status

/-! ## Jumpdest map construction (`build_jumpdest_map`) -/

/-- One pass of the `build_jumpdest_map` scan loop, fuel-indexed.  The
source iterates `i` over the code, sets bit `i` on a `JUMPDEST` byte and
skips the immediate bytes of a `PUSH1..PUSH32`. -/
def buildAux (code : List Nat) : Nat → Nat → List Bool → List Bool
  | 0, _, m => m
  | fuel + 1, i, m =>
    if i < code.length then
      let op := code.getD i 0
      if op = OP_JUMPDEST then buildAux code fuel (i + 1) (m.set i true)
      else if OP_PUSH1 ≤ op ∧ op ≤ OP_PUSH32 then
        buildAux code fuel (i + (op - OP_PUSH1 + 1) + 1) m
      else buildAux code fuel (i + 1) m
    else m

/-- `build_jumpdest_map`: the bitset of valid jump destinations.  The scan
advances by at least one position per step, so `code.length` fuel is
enough to run the source loop to completion. -/
def build_jumpdest_map (code : List Nat) : List Bool :=
  buildAux code code.length 0 (List.replicate code.length false)

/-- The length of an opcode's immediate data: `op - OP_PUSH1 + 1` for the
push opcodes, `0` otherwise. -/
def pushDataLen (op : Nat) : Nat :=
  if OP_PUSH1 ≤ op ∧ op ≤ OP_PUSH32 then op - OP_PUSH1 + 1 else 0

/-- The instruction-start positions of the code, reading from position
`i`: each instruction occupies its opcode byte plus its immediate data.
(Specification-side notion used to state the jumpdest-map invariant.) -/
def startsAux (code : List Nat) : Nat → Nat → List Nat
  | 0, _ => []
  | fuel + 1, i =>
    if i < code.length then
      i :: startsAux code fuel (i + 1 + pushDataLen (code.getD i 0))
    else []

/-- All instruction-start positions of the code. -/
def starts (code : List Nat) : List Nat := startsAux code code.length 0

/-- Follows the spec's words: byte `j` lies inside the immediate data of a
preceding `PUSH1..PUSH32` — some instruction-start position `p` holds a
push opcode whose immediate bytes `p+1 .. p+n` cover `j`. -/
def insideImmediate (code : List Nat) (j : Nat) : Prop :=
  ∃ p, p ∈ starts code ∧ (OP_PUSH1 ≤ code.getD p 0 ∧ code.getD p 0 ≤ OP_PUSH32) ∧
    p < j ∧ j ≤ p + (code.getD p 0 - OP_PUSH1 + 1)

instance (code : List Nat) (j : Nat) : Decidable (insideImmediate code j) :=
  List.decidableBEx
    (fun p => (OP_PUSH1 ≤ code.getD p 0 ∧ code.getD p 0 ≤ OP_PUSH32) ∧
      p < j ∧ j ≤ p + (code.getD p 0 - OP_PUSH1 + 1))
    (starts code)

/-! ## `op_jump` -/

/-- `op_jump`: pop the destination; if it is out of range of the jumpdest
map or its bit is clear, set `BAD_JUMP_DESTINATION` and return the code
end as the new program counter, otherwise return the destination. -/
def op_jump (jm : List Bool) (code_len : Nat) (st : ExecutionState) :
    Nat × ExecutionState :=
  let dst := st.stack.getD 0 0
  let st' := { st with stack := st.stack.tail }
  if jm.length ≤ dst ∨ ¬ jm.getD dst false then
    (code_len, { st' with status := StatusCode.BAD_JUMP_DESTINATION })
  else
    (dst, st')

/-! ## `load_push` -/

/-- Big-endian value of a byte sequence. -/
def beLoad (bytes : List Nat) : Nat := bytes.foldl (fun a b => a * 256 + b) 0

/-- `load_push`: with `pos` the index of the first immediate byte, push
the `len` immediate bytes big-endian and return the next program counter;
if the immediate runs past the code end, push nothing and return the code
end ("Trimmed push data can be ignored"). -/
def load_push (len : Nat) (st : ExecutionState) (code : List Nat) (pos : Nat) :
    Nat × ExecutionState :=
  if code.length < pos + len then (code.length, st)
  else (pos + len, { st with stack := beLoad ((code.drop pos).take len) :: st.stack })

/-! ## Memory check (`check_memory`, from `instructions.hpp`) -/

/-- Memory cost at a word count `w`: `3·w + ⌊w²/512⌋`. -/
def memoryCostWords (w : Nat) : Int := ((3 * w + w * w / 512 : Nat) : Int)

/-- The largest offset/length representable in the platform offset type. -/
def maxMemorySize : Nat := 2 ^ 64

/-- Modelled from the spec: `check_memory` (defined in `instructions.hpp`,
not part of the analysed source).  Grows memory to cover the access window
`[offset, offset + size)`, charging the quadratic word cost; `none` means
the charge failed (or the window does not fit the platform offset type)
and the caller must report `OUT_OF_GAS`.  A zero-length access never grows
memory and never fails. -/
def check_memory (st : ExecutionState) (offset size : Nat) :
    Option ExecutionState :=
  if size = 0 then some st
  else if maxMemorySize ≤ offset ∨ maxMemorySize ≤ size then none
  else
    let new_words := (offset + size + 31) / 32
    let old_words := st.memory.length / 32
    if new_words ≤ old_words then some st
    else
      let g := st.gas_left - (memoryCostWords new_words - memoryCostWords old_words)
      if g < 0 then none
      else some
        { st with
          gas_left := g
          memory := st.memory ++ List.replicate (32 * new_words - st.memory.length) 0 }

/-! ## `op_return` -/

/-- `op_return<StatusCode>`: read offset and size from the top two stack
slots, grow memory to cover the window (reporting `OUT_OF_GAS` and leaving
the output window untouched if that fails), record the output window —
the offset only for a non-empty output — and set the terminating status. -/
def op_return (sc : StatusCode) (st : ExecutionState) : ExecutionState :=
  let offset := st.stack.getD 0 0
  let size := st.stack.getD 1 0
  match check_memory st offset size with
  | none => { st with status := StatusCode.OUT_OF_GAS }
  | some st1 =>
    let st2 := { st1 with output_size := size }
    let st3 := if size ≠ 0 then { st2 with output_offset := offset } else st2
    { st3 with status := sc }

/-! ## `check_requirements` -/

/-- `check_requirements`: undefined-instruction check, base-gas charge
(the deduction is kept even when it fails), stack-underflow and
stack-overflow checks, in this order, stopping at the first failure. -/
def check_requirements (tab : InstrTable) (st : ExecutionState) (op : Nat) :
    StatusCode × ExecutionState :=
  if tab.defined op = false then (StatusCode.UNDEFINED_INSTRUCTION, st)
  else
    let st' := { st with gas_left := st.gas_left - tab.gas_cost op }
    if st'.gas_left < 0 then (StatusCode.OUT_OF_GAS, st')
    else if (st.stack.length : Int) < tab.stack_required op then
      (StatusCode.STACK_UNDERFLOW, st')
    else if (st.stack.length : Int) + tab.stack_change op > 1024 then
      (StatusCode.STACK_OVERFLOW, st')
    else (StatusCode.SUCCESS, st')

/-! ## The dispatch loop -/

/-- Result of one iteration of the dispatch loop body: either continue at
a new program counter or leave the loop (`goto exit`). -/
inductive StepResult where
  | next (pc : Nat) (st : ExecutionState)
  | halt (st : ExecutionState)
  deriving DecidableEq, Repr

/-- One iteration of the dispatch loop body (`pc` in range): fetch the
opcode, run `check_requirements`, then the dispatch switch.  The control
opcodes and the opcodes whose bodies are written out in `baseline.cpp`
are modelled directly; every other case delegates to `sem`, halting when
the body reports a non-`SUCCESS` status (`SELFDESTRUCT` always halts, with
whatever status its body returns).  `POP` removes the top stack slot
(body in `instructions.hpp`; modelled from the spec: "DUPn, SWAPn, POP —
stack-only"). -/
def step (tab : InstrTable) (sem : InstrSem) (code : List Nat) (jm : List Bool)
    (pc : Nat) (st : ExecutionState) : StepResult :=
  let op := code.getD pc 0
  let c := check_requirements tab st op
  if c.1 ≠ StatusCode.SUCCESS then .halt { c.2 with status := c.1 }
  else
    let st1 := c.2
    if op = OP_STOP then .halt st1
    else if op = OP_JUMP then
      let r := op_jump jm code.length st1
      .next r.1 r.2
    else if op = OP_JUMPI then
      if st1.stack.getD 1 0 ≠ 0 then
        let r := op_jump jm code.length st1
        .next r.1 { r.2 with stack := r.2.stack.tail }
      else .next (pc + 1) { st1 with stack := st1.stack.tail.tail }
    else if op = OP_PC then .next (pc + 1) { st1 with stack := pc :: st1.stack }
    else if op = OP_GAS then
      .next (pc + 1) { st1 with stack := st1.gas_left.toNat :: st1.stack }
    else if op = OP_CODESIZE then
      .next (pc + 1) { st1 with stack := code.length :: st1.stack }
    else if op = OP_JUMPDEST then .next (pc + 1) st1
    else if op = OP_POP then .next (pc + 1) { st1 with stack := st1.stack.tail }
    else if OP_PUSH1 ≤ op ∧ op ≤ OP_PUSH32 then
      let r := load_push (op - OP_PUSH1 + 1) st1 code (pc + 1)
      .next r.1 r.2
    else if op = OP_RETURN then .halt (op_return StatusCode.SUCCESS st1)
    else if op = OP_REVERT then .halt (op_return StatusCode.REVERT st1)
    else if op = OP_INVALID then
      .halt { st1 with status := StatusCode.INVALID_INSTRUCTION }
    else if op = OP_SELFDESTRUCT then
      let r := sem op st1
      .halt { r.2 with status := r.1 }
    else
      let r := sem op st1
      if r.1 = StatusCode.SUCCESS then .next (pc + 1) r.2
      else .halt { r.2 with status := r.1 }

/-- The dispatch loop (`while (pc != code_end)`), fuel-indexed.  Every
reachable program counter satisfies `pc ≤ code.length`, so the source's
pointer-equality exit test is the complement of `pc < code.length`. -/
def execLoop (tab : InstrTable) (sem : InstrSem) (code : List Nat)
    (jm : List Bool) : Nat → Nat → ExecutionState → Option ExecutionState
  | 0, pc, st => if pc < code.length then none else some st
  | fuel + 1, pc, st =>
    if pc < code.length then
      match step tab sem code jm pc st with
      | .next pc' st' => execLoop tab sem code jm fuel pc' st'
      | .halt st' => some st'
    else some st

/-! ## Result construction and `baseline_execute` -/

/-- The external result of an execution. -/
structure ExecResult where
  status : StatusCode
  gas_left : Int
  output_data : List Nat
  deriving DecidableEq, Repr

/-- The exit path of `baseline_execute`: report `gas_left` for `SUCCESS`
and `REVERT` and `0` for every other status, and hand out the output
window of the memory. -/
def make_result (st : ExecutionState) : ExecResult :=
  { status := st.status,
    gas_left :=
      if st.status = StatusCode.SUCCESS ∨ st.status = StatusCode.REVERT then
        st.gas_left
      else 0,
    output_data := (st.memory.drop st.output_offset).take st.output_size }

/-- `baseline_execute`: build the jumpdest map, run the dispatch loop from
program counter `0` on a fresh state, and package the result. -/
def baseline_execute (tab : InstrTable) (sem : InstrSem) (code : List Nat)
    (msg_gas : Int) (fuel : Nat) : Option ExecResult :=
  (execLoop tab sem code (build_jumpdest_map code) fuel 0
      (initialState msg_gas)).map make_result

/-! ## The dispatch switch's case labels -/

/-- The opcode values carrying an explicit `case` label in the dispatch
switch of `baseline_execute` (reaching the `default: assert(false)` branch
means none of these matched). -/
def dispatchCases : List Nat :=
  [0x00, 0x01, 0x02, 0x03, 0x04, 0x05, 0x06, 0x07, 0x08, 0x09, 0x0a, 0x0b,
   0x10, 0x11, 0x12, 0x13, 0x14, 0x15, 0x16, 0x17, 0x18, 0x19, 0x1a, 0x1b,
   0x1c, 0x1d, 0x20,
   0x30, 0x31, 0x32, 0x33, 0x34, 0x35, 0x36, 0x37, 0x38, 0x39, 0x3a, 0x3b,
   0x3c, 0x3d, 0x3e, 0x3f,
   0x40, 0x41, 0x42, 0x43, 0x44, 0x45, 0x46, 0x47,
   0x50, 0x51, 0x52, 0x53, 0x54, 0x55, 0x56, 0x57, 0x58, 0x59, 0x5a, 0x5b,
   0x60, 0x61, 0x62, 0x63, 0x64, 0x65, 0x66, 0x67, 0x68, 0x69, 0x6a, 0x6b,
   0x6c, 0x6d, 0x6e, 0x6f, 0x70, 0x71, 0x72, 0x73, 0x74, 0x75, 0x76, 0x77,
   0x78, 0x79, 0x7a, 0x7b, 0x7c, 0x7d, 0x7e, 0x7f,
   0x80, 0x81, 0x82, 0x83, 0x84, 0x85, 0x86, 0x87, 0x88, 0x89, 0x8a, 0x8b,
   0x8c, 0x8d, 0x8e, 0x8f,
   0x90, 0x91, 0x92, 0x93, 0x94, 0x95, 0x96, 0x97, 0x98, 0x99, 0x9a, 0x9b,
   0x9c, 0x9d, 0x9e, 0x9f,
   0xa0, 0xa1, 0xa2, 0xa3, 0xa4,
   0xf0, 0xf1, 0xf2, 0xf3, 0xf4, 0xf5, 0xfa, 0xfd, 0xfe, 0xff]

/-- Modelled from the spec: the opcodes whose entry in the instruction
names table is non-null at the newest revision the interpreter supports
(`evmc_get_instruction_names_table` is external data; the spec's §4.5 and
§6 list the instruction set and its standard numbering, ending at the
Istanbul additions `CHAINID`/`SELFBALANCE`). -/
def definedOpcodes : List Nat :=
  [0x00, 0x01, 0x02, 0x03, 0x04, 0x05, 0x06, 0x07, 0x08, 0x09, 0x0a, 0x0b,
   0x10, 0x11, 0x12, 0x13, 0x14, 0x15, 0x16, 0x17, 0x18, 0x19, 0x1a, 0x1b,
   0x1c, 0x1d, 0x20,
   0x30, 0x31, 0x32, 0x33, 0x34, 0x35, 0x36, 0x37, 0x38, 0x39, 0x3a, 0x3b,
   0x3c, 0x3d, 0x3e, 0x3f,
   0x40, 0x41, 0x42, 0x43, 0x44, 0x45, 0x46, 0x47,
   0x50, 0x51, 0x52, 0x53, 0x54, 0x55, 0x56, 0x57, 0x58, 0x59, 0x5a, 0x5b,
   0x60, 0x61, 0x62, 0x63, 0x64, 0x65, 0x66, 0x67, 0x68, 0x69, 0x6a, 0x6b,
   0x6c, 0x6d, 0x6e, 0x6f, 0x70, 0x71, 0x72, 0x73, 0x74, 0x75, 0x76, 0x77,
   0x78, 0x79, 0x7a, 0x7b, 0x7c, 0x7d, 0x7e, 0x7f,
   0x80, 0x81, 0x82, 0x83, 0x84, 0x85, 0x86, 0x87, 0x88, 0x89, 0x8a, 0x8b,
   0x8c, 0x8d, 0x8e, 0x8f,
   0x90, 0x91, 0x92, 0x93, 0x94, 0x95, 0x96, 0x97, 0x98, 0x99, 0x9a, 0x9b,
   0x9c, 0x9d, 0x9e, 0x9f,
   0xa0, 0xa1, 0xa2, 0xa3, 0xa4,
   0xf0, 0xf1, 0xf2, 0xf3, 0xf4, 0xf5, 0xfa, 0xfd, 0xfe, 0xff]

/-! ## Concrete instances used to evaluate the model -/

/-- A simple instruction table for concrete runs: every opcode defined,
base cost `1`, no stack requirement, stack growth `1`. -/
def sampleTable : InstrTable :=
  { defined := fun _ => true, gas_cost := fun _ => 1,
    stack_required := fun _ => 0, stack_change := fun _ => 1 }

/-- A trivial instruction-body semantics for concrete runs: leave the
state unchanged and report success. -/
def sampleSem : InstrSem := fun _ st => (StatusCode.SUCCESS, st)

/-- An instruction table whose defined set is exactly `definedOpcodes`. -/
def specTable : InstrTable :=
  { defined := fun op => decide (op ∈ definedOpcodes), gas_cost := fun _ => 0,
    stack_required := fun _ => 0, stack_change := fun _ => 0 }

/-! ## Generic list helpers -/

theorem getD_set_self {l : List Bool} {i : Nat} {a d : Bool} (h : i < l.length) :
    (l.set i a).getD i d = a := by
  simp [List.getD_eq_getElem?_getD, List.getElem?_set_self, h]

theorem getD_set_ne {l : List Bool} {i j : Nat} {a d : Bool} (h : j ≠ i) :
    (l.set i a).getD j d = l.getD j d := by
  simp [List.getD_eq_getElem?_getD, List.getElem?_set_ne (Ne.symm h)]

theorem getD_replicate {n i : Nat} {d b : Bool} (h : i < n) :
    (List.replicate n b).getD i d = b := by
  simp [List.getD_eq_getElem?_getD, List.getElem?_replicate, h]

/-! ## Jumpdest-map scan lemmas -/

theorem buildAux_length (code : List Nat) :
    ∀ fuel i m, (buildAux code fuel i m).length = m.length := by
  intro fuel
  induction fuel with
  | zero => intro i m; rfl
  | succ fuel ih =>
    intro i m
    simp only [buildAux]
    split
    · split
      · rw [ih, List.length_set]
      · split
        · exact ih _ _
        · exact ih _ _
    · rfl

theorem startsAux_mem_bounds (code : List Nat) :
    ∀ fuel i j, j ∈ startsAux code fuel i → i ≤ j ∧ j < code.length := by
  intro fuel
  induction fuel with
  | zero => intro i j h; simp [startsAux] at h
  | succ fuel ih =>
    intro i j h
    simp only [startsAux] at h
    split at h
    · rcases List.mem_cons.mp h with h1 | h1
      · omega
      · have := ih _ _ h1
        omega
    · simp at h

theorem jumpdest_not_push (op : Nat) (h : op = OP_JUMPDEST) :
    ¬ (OP_PUSH1 ≤ op ∧ op ≤ OP_PUSH32) := by
  subst h
  simp [OP_JUMPDEST, OP_PUSH1, OP_PUSH32]

theorem buildAux_getD (code : List Nat) :
    ∀ fuel i m, m.length = code.length → ∀ j,
      ((buildAux code fuel i m).getD j false = true ↔
        (m.getD j false = true ∨
          (j ∈ startsAux code fuel i ∧ code.getD j 0 = OP_JUMPDEST))) := by
  intro fuel
  induction fuel with
  | zero => intro i m _ j; simp [buildAux, startsAux]
  | succ fuel ih =>
    intro i m hm j
    simp only [buildAux, startsAux]
    split
    · rename_i hi
      split
      · rename_i hjd
        have hlen : m.length = code.length := hm
        have hset : (m.set i true).length = code.length := by
          rw [List.length_set]; exact hm
        rw [ih _ _ hset j]
        have hnext : i + 1 + pushDataLen (code.getD i 0) = i + 1 := by
          rw [pushDataLen, if_neg (jumpdest_not_push _ hjd)]
        rw [hnext]
        by_cases hji : j = i
        · subst hji
          rw [getD_set_self (by omega)]
          constructor
          · intro _; exact Or.inr ⟨List.mem_cons_self _ _, hjd⟩
          · intro _; exact Or.inl rfl
        · rw [getD_set_ne hji]
          constructor
          · rintro (h | ⟨h1, h2⟩)
            · exact Or.inl h
            · exact Or.inr ⟨List.mem_cons_of_mem _ h1, h2⟩
          · rintro (h | ⟨h1, h2⟩)
            · exact Or.inl h
            · rcases List.mem_cons.mp h1 with h3 | h3
              · exact absurd h3 hji
              · exact Or.inr ⟨h3, h2⟩
      · split
        · rename_i hjd hpush
          have hnext : i + (code.getD i 0 - OP_PUSH1 + 1) + 1 =
              i + 1 + pushDataLen (code.getD i 0) := by
            rw [pushDataLen, if_pos hpush]; omega
          rw [hnext, ih _ _ hm j]
          constructor
          · rintro (h | ⟨h1, h2⟩)
            · exact Or.inl h
            · exact Or.inr ⟨List.mem_cons_of_mem _ h1, h2⟩
          · rintro (h | ⟨h1, h2⟩)
            · exact Or.inl h
            · rcases List.mem_cons.mp h1 with h3 | h3
              · subst h3; exact absurd h2 hjd
              · exact Or.inr ⟨h3, h2⟩
        · rename_i hjd hpush
          have hnext : i + 1 + pushDataLen (code.getD i 0) = i + 1 := by
            rw [pushDataLen, if_neg hpush]
          rw [hnext, ih _ _ hm j]
          constructor
          · rintro (h | ⟨h1, h2⟩)
            · exact Or.inl h
            · exact Or.inr ⟨List.mem_cons_of_mem _ h1, h2⟩
          · rintro (h | ⟨h1, h2⟩)
            · exact Or.inl h
            · rcases List.mem_cons.mp h1 with h3 | h3
              · subst h3; exact absurd h2 hjd
              · exact Or.inr ⟨h3, h2⟩
    · simp

theorem startsAux_chain (code : List Nat) :
    ∀ fuel i p q, p ∈ startsAux code fuel i → q ∈ startsAux code fuel i →
      p < q → p + 1 + pushDataLen (code.getD p 0) ≤ q := by
  intro fuel
  induction fuel with
  | zero => intro i p q hp; simp [startsAux] at hp
  | succ fuel ih =>
    intro i p q hp hq hpq
    simp only [startsAux] at hp hq
    split at hp
    · rename_i hi
      rw [if_pos hi] at hq
      rcases List.mem_cons.mp hp with hp1 | hp1
      · rcases List.mem_cons.mp hq with hq1 | hq1
        · omega
        · subst hp1
          exact (startsAux_mem_bounds code _ _ _ hq1).1
      · rcases List.mem_cons.mp hq with hq1 | hq1
        · subst hq1
          have := (startsAux_mem_bounds code _ _ _ hp1).1
          omega
        · exact ih _ _ _ hp1 hq1 hpq
    · simp at hp

theorem startsAux_partition (code : List Nat) :
    ∀ fuel i j, code.length - i ≤ fuel → i ≤ j → j < code.length →
      j ∈ startsAux code fuel i ∨
        ∃ p ∈ startsAux code fuel i,
          (OP_PUSH1 ≤ code.getD p 0 ∧ code.getD p 0 ≤ OP_PUSH32) ∧
          p < j ∧ j ≤ p + (code.getD p 0 - OP_PUSH1 + 1) := by
  intro fuel
  induction fuel with
  | zero => intro i j hfuel hij hj; omega
  | succ fuel ih =>
    intro i j hfuel hij hj
    have hi : i < code.length := by omega
    simp only [startsAux, if_pos hi]
    by_cases hji : j = i
    · exact Or.inl (by rw [hji]; exact List.mem_cons_self _ _)
    · have hij' : i < j := by omega
      by_cases hcov : j < i + 1 + pushDataLen (code.getD i 0)
      · have hlen : 1 ≤ pushDataLen (code.getD i 0) := by omega
        have hpush : OP_PUSH1 ≤ code.getD i 0 ∧ code.getD i 0 ≤ OP_PUSH32 := by
          by_contra hc
          rw [pushDataLen, if_neg hc] at hlen
          omega
        refine Or.inr ⟨i, List.mem_cons_self _ _, hpush, hij', ?_⟩
        rw [pushDataLen, if_pos hpush] at hcov
        omega
      · have hnext : i + 1 + pushDataLen (code.getD i 0) ≤ j := by omega
        have hfuel' : code.length - (i + 1 + pushDataLen (code.getD i 0)) ≤ fuel := by
          omega
        rcases ih _ _ hfuel' hnext hj with h | ⟨p, hp1, hp2, hp3, hp4⟩
        · exact Or.inl (List.mem_cons_of_mem _ h)
        · exact Or.inr ⟨p, List.mem_cons_of_mem _ hp1, hp2, hp3, hp4⟩

/-- The jumpdest map has one bit per code byte. -/
theorem jumpdest_map_length (code : List Nat) :
    (build_jumpdest_map code).length = code.length := by
  rw [build_jumpdest_map, buildAux_length, List.length_replicate]

/-- A jumpdest-map bit is set exactly at the instruction-start positions
holding a `JUMPDEST` byte. -/
theorem jumpdest_map_getD (code : List Nat) (j : Nat) :
    ((build_jumpdest_map code).getD j false = true ↔
      (j ∈ starts code ∧ code.getD j 0 = OP_JUMPDEST)) := by
  rw [build_jumpdest_map, starts,
    buildAux_getD code code.length 0 _ (List.length_replicate _ _) j]
  constructor
  · rintro (h | h)
    · by_cases hj : j < code.length
      · rw [getD_replicate hj] at h
        exact absurd h (by simp)
      · rw [List.getD_eq_default _ _ (by simp; omega)] at h
        exact absurd h (by simp)
    · exact h
  · intro h
    exact Or.inr h

/-- No instruction-start position lies inside the immediate data of a
push. -/
theorem starts_not_inside (code : List Nat) (j : Nat) (hj : j ∈ starts code) :
    ¬ insideImmediate code j := by
  rintro ⟨p, hp1, hp2, hp3, hp4⟩
  have := startsAux_chain code code.length 0 p j hp1 hj hp3
  rw [pushDataLen, if_pos hp2] at this
  omega

/-- Every code byte is an instruction start or sits inside a push
immediate. -/
theorem mem_starts_of_not_inside (code : List Nat) (j : Nat)
    (hj : j < code.length) (hni : ¬ insideImmediate code j) :
    j ∈ starts code := by
  rcases startsAux_partition code code.length 0 j (by omega) (by omega) hj with
    h | ⟨p, hp1, hp2, hp3, hp4⟩
  · exact h
  · exact absurd ⟨p, hp1, hp2, hp3, hp4⟩ hni

/-- C3: a jumpdest-map bit `i` is set iff `code[i]` is `JUMPDEST` and `i`
is not inside the immediate data of a preceding push (no bit is ever set
inside push immediates); `op_jump` accepts a destination `dst` iff
`dst < code_size` and its bit is set, and a jump to `dst = code_size`
yields `BAD_JUMP_DESTINATION`. -/
theorem jumpdest_map_and_jump_correct (code : List Nat) :
    (∀ j, j < code.length →
      ((build_jumpdest_map code).getD j false = true ↔
        (code.getD j 0 = OP_JUMPDEST ∧ ¬ insideImmediate code j)))
    ∧ (∀ j, (build_jumpdest_map code).getD j false = true →
        ¬ insideImmediate code j)
    ∧ (∀ st : ExecutionState,
        ((op_jump (build_jumpdest_map code) code.length st).2.status =
          if st.stack.getD 0 0 < code.length ∧
              (build_jumpdest_map code).getD (st.stack.getD 0 0) false = true
          then st.status else StatusCode.BAD_JUMP_DESTINATION)
        ∧ (st.stack.getD 0 0 < code.length ∧
            (build_jumpdest_map code).getD (st.stack.getD 0 0) false = true →
            (op_jump (build_jumpdest_map code) code.length st).1 =
              st.stack.getD 0 0))
    ∧ (∀ st : ExecutionState, st.stack.getD 0 0 = code.length →
        (op_jump (build_jumpdest_map code) code.length st).2.status =
          StatusCode.BAD_JUMP_DESTINATION) := by
  have hlen := jumpdest_map_length code
  refine ⟨?_, ?_, ?_, ?_⟩
  · intro j hj
    rw [jumpdest_map_getD]
    constructor
    · rintro ⟨hmem, hjd⟩
      exact ⟨hjd, starts_not_inside code j hmem⟩
    · rintro ⟨hjd, hni⟩
      exact ⟨mem_starts_of_not_inside code j hj hni, hjd⟩
  · intro j hbit
    exact starts_not_inside code j ((jumpdest_map_getD code j).mp hbit).1
  · intro st
    constructor
    · simp only [op_jump]
      split
      · rename_i hc
        rw [if_neg]
        intro ⟨h1, h2⟩
        rcases hc with hc | hc
        · omega
        · simp only [List.getD_eq_getElem?_getD] at h2
          simp [h2] at hc
      · rename_i hc
        rw [if_pos]
        push_neg at hc
        refine ⟨by omega, ?_⟩
        cases h : (build_jumpdest_map code).getD (st.stack.getD 0 0) false
        · exact absurd h (by simpa using hc.2)
        · rfl
    · intro ⟨h1, h2⟩
      simp only [op_jump]
      rw [if_neg]
      intro hc
      rcases hc with hc | hc
      · omega
      · simp only [List.getD_eq_getElem?_getD] at h2
        simp [h2] at hc
  · intro st hdst
    simp only [op_jump]
    rw [if_pos]
    exact Or.inl (by omega)

/-! ## `check_requirements` facts -/

set_option maxRecDepth 40000 in
theorem definedOpcodes_subset :
    ∀ op ∈ definedOpcodes, op ∈ dispatchCases := by decide

/-- C2: `check_requirements` performs the undefined-instruction check, the
base-gas charge, the stack-underflow check and the stack-overflow check in
this order, stopping at the first failure; gas exactly equal to the base
cost passes with `gas_left = 0`; and the dispatch loop halts the frame
with the reported status on any failure. -/
theorem check_requirements_correct (tab : InstrTable) (st : ExecutionState)
    (op : Nat) :
    (tab.defined op = false →
      check_requirements tab st op = (StatusCode.UNDEFINED_INSTRUCTION, st))
    ∧ (tab.defined op = true → st.gas_left - tab.gas_cost op < 0 →
      check_requirements tab st op =
        (StatusCode.OUT_OF_GAS,
          { st with gas_left := st.gas_left - tab.gas_cost op }))
    ∧ (tab.defined op = true → 0 ≤ st.gas_left - tab.gas_cost op →
      (st.stack.length : Int) < tab.stack_required op →
      check_requirements tab st op =
        (StatusCode.STACK_UNDERFLOW,
          { st with gas_left := st.gas_left - tab.gas_cost op }))
    ∧ (tab.defined op = true → 0 ≤ st.gas_left - tab.gas_cost op →
      tab.stack_required op ≤ (st.stack.length : Int) →
      (st.stack.length : Int) + tab.stack_change op > 1024 →
      check_requirements tab st op =
        (StatusCode.STACK_OVERFLOW,
          { st with gas_left := st.gas_left - tab.gas_cost op }))
    ∧ (tab.defined op = true → 0 ≤ st.gas_left - tab.gas_cost op →
      tab.stack_required op ≤ (st.stack.length : Int) →
      (st.stack.length : Int) + tab.stack_change op ≤ 1024 →
      check_requirements tab st op =
        (StatusCode.SUCCESS,
          { st with gas_left := st.gas_left - tab.gas_cost op }))
    ∧ (tab.defined op = true → tab.gas_cost op = st.gas_left →
      tab.stack_required op ≤ (st.stack.length : Int) →
      (st.stack.length : Int) + tab.stack_change op ≤ 1024 →
      check_requirements tab st op =
        (StatusCode.SUCCESS, { st with gas_left := 0 }))
    ∧ (∀ (sem : InstrSem) (code : List Nat) (jm : List Bool) (pc : Nat)
        (sc : StatusCode) (st1 : ExecutionState),
        code.getD pc 0 = op →
        check_requirements tab st op = (sc, st1) →
        sc ≠ StatusCode.SUCCESS →
        step tab sem code jm pc st = .halt { st1 with status := sc }) := by
  refine ⟨?_, ?_, ?_, ?_, ?_, ?_, ?_⟩
  · intro hdef
    rw [check_requirements, if_pos hdef]
  · intro hdef hgas
    rw [check_requirements, if_neg (by simp [hdef])]
    simp only
    rw [if_pos hgas]
  · intro hdef hgas hstack
    rw [check_requirements, if_neg (by simp [hdef])]
    simp only
    rw [if_neg (by omega), if_pos hstack]
  · intro hdef hgas hreq hover
    rw [check_requirements, if_neg (by simp [hdef])]
    simp only
    rw [if_neg (by omega), if_neg (by omega), if_pos hover]
  · intro hdef hgas hreq hover
    rw [check_requirements, if_neg (by simp [hdef])]
    simp only
    rw [if_neg (by omega), if_neg (by omega), if_neg (by omega)]
  · intro hdef hgas hreq hover
    rw [check_requirements, if_neg (by simp [hdef])]
    simp only
    rw [if_neg (by omega), if_neg (by omega), if_neg (by omega)]
    have : st.gas_left - tab.gas_cost op = 0 := by omega
    rw [this]
  · intro sem code jm pc sc st1 hop hcr hsc
    simp only [step, hop, hcr]
    rw [if_pos hsc]

/-- C8: executing empty code yields `SUCCESS`, reported gas equal to the
message gas, and empty output, for any fuel: the loop body never runs. -/
theorem empty_code_executes_to_success (tab : InstrTable) (sem : InstrSem)
    (msg_gas : Int) (fuel : Nat) :
    baseline_execute tab sem [] msg_gas fuel =
      some { status := StatusCode.SUCCESS, gas_left := msg_gas,
             output_data := [] } := by
  cases fuel <;> rfl

/-- C9: every opcode in the modelled defined set has an explicit case in
the dispatch switch, and consequently any opcode that passes
`check_requirements` under a table whose defined set is contained in the
modelled one is covered by an explicit case (the `default` branch with
`assert(false)` is unreachable). -/
theorem dispatch_covers_defined_opcodes :
    (∀ op ∈ definedOpcodes, op ∈ dispatchCases)
    ∧ (∀ (tab : InstrTable) (st : ExecutionState) (op : Nat),
        (∀ o, tab.defined o = true → o ∈ definedOpcodes) →
        (check_requirements tab st op).1 = StatusCode.SUCCESS →
        op ∈ dispatchCases) := by
  constructor
  · exact definedOpcodes_subset
  · intro tab st op htab hcr
    have hdef : tab.defined op = true := by
      by_contra hc
      have hfalse : tab.defined op = false := by
        cases h : tab.defined op
        · rfl
        · exact absurd h hc
      rw [check_requirements, if_pos hfalse] at hcr
      simp at hcr
    exact definedOpcodes_subset op (htab op hdef)

/-! ## Field lemmas for the loop components -/

theorem cr_fields (tab : InstrTable) (st : ExecutionState) (op : Nat) :
    (check_requirements tab st op).2.stack = st.stack ∧
    (check_requirements tab st op).2.memory = st.memory ∧
    (check_requirements tab st op).2.output_offset = st.output_offset ∧
    (check_requirements tab st op).2.output_size = st.output_size ∧
    (check_requirements tab st op).2.status = st.status := by
  simp only [check_requirements]
  split_ifs <;> simp

theorem cr_success_eq (tab : InstrTable) (st : ExecutionState) (op : Nat)
    (h : (check_requirements tab st op).1 = StatusCode.SUCCESS) :
    (check_requirements tab st op).2 =
      { st with gas_left := st.gas_left - tab.gas_cost op } := by
  simp only [check_requirements] at h ⊢
  split_ifs at h ⊢ <;> simp_all

theorem cr_success_gas (tab : InstrTable) (st : ExecutionState) (op : Nat)
    (h : (check_requirements tab st op).1 = StatusCode.SUCCESS) :
    0 ≤ (check_requirements tab st op).2.gas_left := by
  simp only [check_requirements] at h ⊢
  split_ifs at h ⊢ <;> simp_all <;> omega

theorem cr_gas_le (tab : InstrTable) (st : ExecutionState) (op : Nat)
    (hcost : 0 ≤ tab.gas_cost op) :
    (check_requirements tab st op).2.gas_left ≤ st.gas_left := by
  simp only [check_requirements]
  split_ifs <;> simp <;> omega

theorem cr_ne_revert (tab : InstrTable) (st : ExecutionState) (op : Nat) :
    (check_requirements tab st op).1 ≠ StatusCode.REVERT := by
  simp only [check_requirements]
  split_ifs <;> simp

theorem memoryCostWords_mono {a b : Nat} (h : a ≤ b) :
    memoryCostWords a ≤ memoryCostWords b := by
  simp only [memoryCostWords, Int.ofNat_le]
  have h1 : 3 * a ≤ 3 * b := by omega
  have h2 : a * a / 512 ≤ b * b / 512 :=
    Nat.div_le_div_right (Nat.mul_le_mul h h)
  omega

theorem check_memory_some_fields (st : ExecutionState) (o s : Nat)
    (st1 : ExecutionState) (h : check_memory st o s = some st1) :
    st1.stack = st.stack ∧ st1.output_offset = st.output_offset ∧
    st1.output_size = st.output_size ∧ st1.status = st.status ∧
    st1.gas_left ≤ st.gas_left ∧ (0 ≤ st.gas_left → 0 ≤ st1.gas_left) := by
  simp only [check_memory] at h
  split_ifs at h with h1 h2 h3 h4
  · cases h
    simp
  · cases h
    simp
  · have hmono : memoryCostWords (st.memory.length / 32) ≤
        memoryCostWords ((o + s + 31) / 32) := memoryCostWords_mono (by omega)
    cases h
    refine ⟨rfl, rfl, rfl, rfl, ?_, ?_⟩
    · simp
      omega
    · intro hg
      simp
      omega

theorem op_return_cases (sc : StatusCode) (st : ExecutionState) :
    ((op_return sc st).status = StatusCode.OUT_OF_GAS ∧
      (op_return sc st).gas_left = st.gas_left ∧
      (op_return sc st).output_size = st.output_size) ∨
    ((op_return sc st).status = sc ∧
      (op_return sc st).gas_left ≤ st.gas_left ∧
      (0 ≤ st.gas_left → 0 ≤ (op_return sc st).gas_left)) := by
  rcases h : check_memory st (st.stack.getD 0 0) (st.stack.getD 1 0) with _ | st1
  · left
    simp only [List.getD_eq_getElem?_getD] at h
    simp [op_return, h]
  · right
    have hf := check_memory_some_fields st _ _ st1 h
    simp only [List.getD_eq_getElem?_getD] at h
    by_cases hz : st.stack[1]?.getD 0 = 0
    · rw [hz] at h
      simp [op_return, h, hz]
      exact ⟨hf.2.2.2.2.1, hf.2.2.2.2.2⟩
    · simp [op_return, h, hz]
      exact ⟨hf.2.2.2.2.1, hf.2.2.2.2.2⟩

theorem op_jump_snd_fields (jm : List Bool) (L : Nat) (st : ExecutionState) :
    (op_jump jm L st).2.gas_left = st.gas_left ∧
    (op_jump jm L st).2.memory = st.memory ∧
    (op_jump jm L st).2.output_offset = st.output_offset ∧
    (op_jump jm L st).2.output_size = st.output_size ∧
    (op_jump jm L st).2.stack = st.stack.tail := by
  simp only [op_jump]
  split_ifs <;> simp

theorem load_push_snd_fields (len : Nat) (st : ExecutionState)
    (code : List Nat) (pos : Nat) :
    (load_push len st code pos).2.gas_left = st.gas_left ∧
    (load_push len st code pos).2.memory = st.memory ∧
    (load_push len st code pos).2.output_offset = st.output_offset ∧
    (load_push len st code pos).2.output_size = st.output_size ∧
    (load_push len st code pos).2.status = st.status := by
  simp only [load_push]
  split_ifs <;> simp

/-! ## Loop lemmas -/

theorem execLoop_exit (tab : InstrTable) (sem : InstrSem) (code : List Nat)
    (jm : List Bool) (fuel pc : Nat) (st : ExecutionState)
    (h : ¬ pc < code.length) :
    execLoop tab sem code jm fuel pc st = some st := by
  cases fuel <;> simp [execLoop, h]

theorem execLoop_inv (tab : InstrTable) (sem : InstrSem) (code : List Nat)
    (jm : List Bool) (P : ExecutionState → Prop) (Q : ExecutionState → Prop)
    (hnext : ∀ pc st pc' st', pc < code.length → P st →
      step tab sem code jm pc st = .next pc' st' → P st')
    (hhalt : ∀ pc st st', pc < code.length → P st →
      step tab sem code jm pc st = .halt st' → Q st')
    (hPQ : ∀ st, P st → Q st) :
    ∀ fuel pc st fs, execLoop tab sem code jm fuel pc st = some fs →
      P st → Q fs := by
  intro fuel
  induction fuel with
  | zero =>
    intro pc st fs hrun hP
    simp only [execLoop] at hrun
    by_cases h : pc < code.length
    · rw [if_pos h] at hrun
      exact Option.noConfusion hrun
    · rw [if_neg h] at hrun
      injection hrun with h2
      exact h2 ▸ hPQ _ hP
  | succ fuel ih =>
    intro pc st fs hrun hP
    simp only [execLoop] at hrun
    by_cases h : pc < code.length
    · rw [if_pos h] at hrun
      cases hstep : step tab sem code jm pc st with
      | next pc' st' =>
        rw [hstep] at hrun
        exact ih pc' st' fs hrun (hnext pc st pc' st' h hP hstep)
      | halt st' =>
        rw [hstep] at hrun
        injection hrun with h2
        exact h2 ▸ hhalt pc st st' h hP hstep
    · rw [if_neg h] at hrun
      injection hrun with h2
      exact h2 ▸ hPQ _ hP

theorem cr_osize (tab : InstrTable) (st : ExecutionState) (op : Nat) :
    (check_requirements tab st op).2.output_size = st.output_size :=
  (cr_fields tab st op).2.2.2.1

theorem cr_status (tab : InstrTable) (st : ExecutionState) (op : Nat) :
    (check_requirements tab st op).2.status = st.status :=
  (cr_fields tab st op).2.2.2.2

theorem op_jump_gas (jm : List Bool) (L : Nat) (st : ExecutionState) :
    (op_jump jm L st).2.gas_left = st.gas_left :=
  (op_jump_snd_fields jm L st).1

theorem op_jump_osize (jm : List Bool) (L : Nat) (st : ExecutionState) :
    (op_jump jm L st).2.output_size = st.output_size :=
  (op_jump_snd_fields jm L st).2.2.2.1

theorem load_push_gas (len : Nat) (st : ExecutionState) (code : List Nat)
    (pos : Nat) : (load_push len st code pos).2.gas_left = st.gas_left :=
  (load_push_snd_fields len st code pos).1

theorem load_push_osize (len : Nat) (st : ExecutionState) (code : List Nat)
    (pos : Nat) : (load_push len st code pos).2.output_size = st.output_size :=
  (load_push_snd_fields len st code pos).2.2.2.1

set_option maxHeartbeats 1000000 in
theorem step_next_inv (tab : InstrTable) (sem : InstrSem) (code : List Nat)
    (jm : List Bool) (pc : Nat) (st : ExecutionState) (pc' : Nat)
    (st' : ExecutionState)
    (hcost : ∀ op, 0 ≤ tab.gas_cost op) (hsem : SemFaithful sem)
    (hstep : step tab sem code jm pc st = .next pc' st') :
    st'.gas_left ≤ st.gas_left ∧ 0 ≤ st'.gas_left ∧
    st'.output_size = st.output_size := by
  have hle := cr_gas_le tab st (code.getD pc 0) (hcost _)
  have hos := cr_osize tab st (code.getD pc 0)
  by_cases hsucc :
    (check_requirements tab st (code.getD pc 0)).1 = StatusCode.SUCCESS
  case neg =>
    simp only [step] at hstep
    rw [if_pos hsucc] at hstep
    exact StepResult.noConfusion hstep
  have hq := cr_success_gas tab st (code.getD pc 0) hsucc
  have hs := hsem (code.getD pc 0) (check_requirements tab st (code.getD pc 0)).2
  simp only [step] at hstep
  rw [if_neg (not_not_intro hsucc)] at hstep
  generalize hceq : check_requirements tab st (code.getD pc 0) = c
    at hstep hle hos hq hs
  generalize hsreq : sem (code.getD pc 0) c.2 = sr at hstep hs
  by_cases h2 : code.getD pc 0 = OP_STOP
  · rw [if_pos h2] at hstep
    exact StepResult.noConfusion hstep
  rw [if_neg h2] at hstep
  by_cases h3 : code.getD pc 0 = OP_JUMP
  · rw [if_pos h3] at hstep
    injection hstep with e1 e2
    subst e2
    exact ⟨by rw [op_jump_gas]; exact hle, by rw [op_jump_gas]; exact hq,
      by rw [op_jump_osize]; exact hos⟩
  rw [if_neg h3] at hstep
  by_cases h4 : code.getD pc 0 = OP_JUMPI
  · rw [if_pos h4] at hstep
    by_cases h5 : c.2.stack.getD 1 0 = 0
    · rw [if_neg (not_not_intro h5)] at hstep
      injection hstep with e1 e2
      subst e2
      exact ⟨hle, hq, hos⟩
    · rw [if_pos h5] at hstep
      injection hstep with e1 e2
      subst e2
      refine ⟨?_, ?_, ?_⟩
      · show (op_jump jm code.length c.2).2.gas_left ≤ st.gas_left
        rw [op_jump_gas]; exact hle
      · show 0 ≤ (op_jump jm code.length c.2).2.gas_left
        rw [op_jump_gas]; exact hq
      · show (op_jump jm code.length c.2).2.output_size = st.output_size
        rw [op_jump_osize]; exact hos
  rw [if_neg h4] at hstep
  by_cases h6 : code.getD pc 0 = OP_PC
  · rw [if_pos h6] at hstep
    injection hstep with e1 e2
    subst e2
    exact ⟨hle, hq, hos⟩
  rw [if_neg h6] at hstep
  by_cases h7 : code.getD pc 0 = OP_GAS
  · rw [if_pos h7] at hstep
    injection hstep with e1 e2
    subst e2
    exact ⟨hle, hq, hos⟩
  rw [if_neg h7] at hstep
  by_cases h8 : code.getD pc 0 = OP_CODESIZE
  · rw [if_pos h8] at hstep
    injection hstep with e1 e2
    subst e2
    exact ⟨hle, hq, hos⟩
  rw [if_neg h8] at hstep
  by_cases h9 : code.getD pc 0 = OP_JUMPDEST
  · rw [if_pos h9] at hstep
    injection hstep with e1 e2
    subst e2
    exact ⟨hle, hq, hos⟩
  rw [if_neg h9] at hstep
  by_cases h10 : code.getD pc 0 = OP_POP
  · rw [if_pos h10] at hstep
    injection hstep with e1 e2
    subst e2
    exact ⟨hle, hq, hos⟩
  rw [if_neg h10] at hstep
  by_cases h11 : OP_PUSH1 ≤ code.getD pc 0 ∧ code.getD pc 0 ≤ OP_PUSH32
  · rw [if_pos h11] at hstep
    injection hstep with e1 e2
    subst e2
    exact ⟨by rw [load_push_gas]; exact hle, by rw [load_push_gas]; exact hq,
      by rw [load_push_osize]; exact hos⟩
  rw [if_neg h11] at hstep
  by_cases h12 : code.getD pc 0 = OP_RETURN
  · rw [if_pos h12] at hstep
    exact StepResult.noConfusion hstep
  rw [if_neg h12] at hstep
  by_cases h13 : code.getD pc 0 = OP_REVERT
  · rw [if_pos h13] at hstep
    exact StepResult.noConfusion hstep
  rw [if_neg h13] at hstep
  by_cases h14 : code.getD pc 0 = OP_INVALID
  · rw [if_pos h14] at hstep
    exact StepResult.noConfusion hstep
  rw [if_neg h14] at hstep
  by_cases h15 : code.getD pc 0 = OP_SELFDESTRUCT
  · rw [if_pos h15] at hstep
    exact StepResult.noConfusion hstep
  rw [if_neg h15] at hstep
  by_cases h16 : sr.1 = StatusCode.SUCCESS
  · rw [if_pos h16] at hstep
    injection hstep with e1 e2
    subst e2
    exact ⟨le_trans hs.1 hle, hs.2.1 hq h16,
      by rw [hs.2.2.2.1]; exact hos⟩
  · rw [if_neg h16] at hstep
    exact StepResult.noConfusion hstep

set_option maxHeartbeats 1000000 in
theorem step_halt_inv (tab : InstrTable) (sem : InstrSem) (code : List Nat)
    (jm : List Bool) (pc : Nat) (st : ExecutionState) (st' : ExecutionState)
    (hcost : ∀ op, 0 ≤ tab.gas_cost op) (hsem : SemFaithful sem)
    (hstep : step tab sem code jm pc st = .halt st') :
    st'.gas_left ≤ st.gas_left ∧
    ((st'.status = StatusCode.SUCCESS ∨ st'.status = StatusCode.REVERT) →
      0 ≤ st'.gas_left) ∧
    (st'.output_size = st.output_size ∨
      st'.status = StatusCode.SUCCESS ∨ st'.status = StatusCode.REVERT) := by
  have hle := cr_gas_le tab st (code.getD pc 0) (hcost _)
  have hos := cr_osize tab st (code.getD pc 0)
  have hnr := cr_ne_revert tab st (code.getD pc 0)
  by_cases hsucc :
    (check_requirements tab st (code.getD pc 0)).1 = StatusCode.SUCCESS
  case neg =>
    simp only [step] at hstep
    rw [if_pos hsucc] at hstep
    generalize hceq : check_requirements tab st (code.getD pc 0) = c
      at hstep hle hos hsucc hnr
    injection hstep with e2
    subst e2
    refine ⟨hle, ?_, Or.inl hos⟩
    intro h
    rcases h with h | h
    · exact absurd h hsucc
    · exact absurd h hnr
  have hq := cr_success_gas tab st (code.getD pc 0) hsucc
  have hs := hsem (code.getD pc 0) (check_requirements tab st (code.getD pc 0)).2
  simp only [step] at hstep
  rw [if_neg (not_not_intro hsucc)] at hstep
  generalize hceq : check_requirements tab st (code.getD pc 0) = c
    at hstep hle hos hq hs
  generalize hsreq : sem (code.getD pc 0) c.2 = sr at hstep hs
  by_cases h2 : code.getD pc 0 = OP_STOP
  · rw [if_pos h2] at hstep
    injection hstep with e2
    subst e2
    exact ⟨hle, fun _ => hq, Or.inl hos⟩
  rw [if_neg h2] at hstep
  by_cases h3 : code.getD pc 0 = OP_JUMP
  · rw [if_pos h3] at hstep
    exact StepResult.noConfusion hstep
  rw [if_neg h3] at hstep
  by_cases h4 : code.getD pc 0 = OP_JUMPI
  · rw [if_pos h4] at hstep
    by_cases h5 : c.2.stack.getD 1 0 = 0
    · rw [if_neg (not_not_intro h5)] at hstep
      exact StepResult.noConfusion hstep
    · rw [if_pos h5] at hstep
      exact StepResult.noConfusion hstep
  rw [if_neg h4] at hstep
  by_cases h6 : code.getD pc 0 = OP_PC
  · rw [if_pos h6] at hstep
    exact StepResult.noConfusion hstep
  rw [if_neg h6] at hstep
  by_cases h7 : code.getD pc 0 = OP_GAS
  · rw [if_pos h7] at hstep
    exact StepResult.noConfusion hstep
  rw [if_neg h7] at hstep
  by_cases h8 : code.getD pc 0 = OP_CODESIZE
  · rw [if_pos h8] at hstep
    exact StepResult.noConfusion hstep
  rw [if_neg h8] at hstep
  by_cases h9 : code.getD pc 0 = OP_JUMPDEST
  · rw [if_pos h9] at hstep
    exact StepResult.noConfusion hstep
  rw [if_neg h9] at hstep
  by_cases h10 : code.getD pc 0 = OP_POP
  · rw [if_pos h10] at hstep
    exact StepResult.noConfusion hstep
  rw [if_neg h10] at hstep
  by_cases h11 : OP_PUSH1 ≤ code.getD pc 0 ∧ code.getD pc 0 ≤ OP_PUSH32
  · rw [if_pos h11] at hstep
    exact StepResult.noConfusion hstep
  rw [if_neg h11] at hstep
  by_cases h12 : code.getD pc 0 = OP_RETURN
  · rw [if_pos h12] at hstep
    injection hstep with e2
    subst e2
    rcases op_return_cases StatusCode.SUCCESS c.2 with ⟨ha, hb, hc2⟩ |
      ⟨ha, hb, hpos⟩
    · refine ⟨le_of_eq_of_le hb hle, ?_, Or.inl (hc2.trans hos)⟩
      intro h
      rw [ha] at h
      rcases h with h | h
      · exact StatusCode.noConfusion h
      · exact StatusCode.noConfusion h
    · exact ⟨le_trans hb hle, fun _ => hpos hq, Or.inr (Or.inl ha)⟩
  rw [if_neg h12] at hstep
  by_cases h13 : code.getD pc 0 = OP_REVERT
  · rw [if_pos h13] at hstep
    injection hstep with e2
    subst e2
    rcases op_return_cases StatusCode.REVERT c.2 with ⟨ha, hb, hc2⟩ |
      ⟨ha, hb, hpos⟩
    · refine ⟨le_of_eq_of_le hb hle, ?_, Or.inl (hc2.trans hos)⟩
      intro h
      rw [ha] at h
      rcases h with h | h
      · exact StatusCode.noConfusion h
      · exact StatusCode.noConfusion h
    · exact ⟨le_trans hb hle, fun _ => hpos hq, Or.inr (Or.inr ha)⟩
  rw [if_neg h13] at hstep
  by_cases h14 : code.getD pc 0 = OP_INVALID
  · rw [if_pos h14] at hstep
    injection hstep with e2
    subst e2
    refine ⟨hle, ?_, Or.inl hos⟩
    intro h
    rcases h with h | h
    · exact StatusCode.noConfusion h
    · exact StatusCode.noConfusion h
  rw [if_neg h14] at hstep
  by_cases h15 : code.getD pc 0 = OP_SELFDESTRUCT
  · rw [if_pos h15] at hstep
    injection hstep with e2
    subst e2
    refine ⟨le_trans hs.1 hle, ?_, Or.inl (hs.2.2.2.1.trans hos)⟩
    intro h
    rcases h with h | h
    · exact hs.2.1 hq h
    · exact absurd h hs.2.2.1
  rw [if_neg h15] at hstep
  by_cases h16 : sr.1 = StatusCode.SUCCESS
  · rw [if_pos h16] at hstep
    exact StepResult.noConfusion hstep
  · rw [if_neg h16] at hstep
    injection hstep with e2
    subst e2
    refine ⟨le_trans hs.1 hle, ?_, Or.inl (hs.2.2.2.1.trans hos)⟩
    intro h
    rcases h with h | h
    · exact absurd h h16
    · exact absurd h hs.2.2.1

theorem execLoop_final_facts (tab : InstrTable) (sem : InstrSem)
    (code : List Nat) (jm : List Bool) (fuel : Nat)
    (st0 fs : ExecutionState)
    (hcost : ∀ op, 0 ≤ tab.gas_cost op) (hsem : SemFaithful sem)
    (hgas0 : 0 ≤ st0.gas_left) (hout0 : st0.output_size = 0)
    (hrun : execLoop tab sem code jm fuel 0 st0 = some fs) :
    fs.gas_left ≤ st0.gas_left ∧
    ((fs.status = StatusCode.SUCCESS ∨ fs.status = StatusCode.REVERT) →
      0 ≤ fs.gas_left) ∧
    (fs.output_size ≠ 0 →
      fs.status = StatusCode.SUCCESS ∨ fs.status = StatusCode.REVERT) := by
  refine execLoop_inv tab sem code jm
    (fun st => st.gas_left ≤ st0.gas_left ∧ 0 ≤ st.gas_left ∧
      st.output_size = 0)
    (fun st => st.gas_left ≤ st0.gas_left ∧
      ((st.status = StatusCode.SUCCESS ∨ st.status = StatusCode.REVERT) →
        0 ≤ st.gas_left) ∧
      (st.output_size ≠ 0 →
        st.status = StatusCode.SUCCESS ∨ st.status = StatusCode.REVERT))
    ?_ ?_ ?_ fuel 0 st0 fs hrun ⟨le_refl _, hgas0, hout0⟩
  · intro pc st pc' st' _ hP hstep
    have hf := step_next_inv tab sem code jm pc st pc' st' hcost hsem hstep
    exact ⟨le_trans hf.1 hP.1, hf.2.1, hf.2.2 ▸ hP.2.2⟩
  · intro pc st st' _ hP hstep
    have hf := step_halt_inv tab sem code jm pc st st' hcost hsem hstep
    refine ⟨le_trans hf.1 hP.1, hf.2.1, ?_⟩
    intro hne
    rcases hf.2.2 with h | h
    · exact absurd (h.trans hP.2.2) hne
    · exact h
  · intro st hP
    refine ⟨hP.1, fun _ => hP.2.1, ?_⟩
    intro hne
    exact absurd hP.2.2 hne

/-- C1: the result of `baseline_execute` reports the frame's final
`gas_left` when the final status is `SUCCESS` or `REVERT` and `0` for
every other status, and the reported gas always lies between `0` and
`msg.gas`. -/
theorem baseline_execute_gas_correct (tab : InstrTable) (sem : InstrSem)
    (code : List Nat) (msg_gas : Int) (fuel : Nat) (res : ExecResult)
    (hcost : ∀ op, 0 ≤ tab.gas_cost op) (hsem : SemFaithful sem)
    (hgas : 0 ≤ msg_gas)
    (hrun : baseline_execute tab sem code msg_gas fuel = some res) :
    (∃ fs, execLoop tab sem code (build_jumpdest_map code) fuel 0
        (initialState msg_gas) = some fs ∧
      res = make_result fs ∧
      res.gas_left = (if fs.status = StatusCode.SUCCESS ∨
          fs.status = StatusCode.REVERT then fs.gas_left else 0))
    ∧ 0 ≤ res.gas_left ∧ res.gas_left ≤ msg_gas := by
  simp only [baseline_execute, Option.map_eq_some'] at hrun
  rcases hrun with ⟨fs, hfs, hres⟩
  have hf := execLoop_final_facts tab sem code (build_jumpdest_map code)
    fuel (initialState msg_gas) fs hcost hsem hgas rfl hfs
  subst hres
  refine ⟨⟨fs, hfs, rfl, rfl⟩, ?_, ?_⟩
  · simp only [make_result]
    split_ifs with h
    · exact hf.2.1 h
    · exact le_refl 0
  · simp only [make_result]
    split_ifs with h
    · exact hf.1
    · exact hgas

/-- C7: an execution terminating with a halting error status returns an
empty output and a reported gas of `0`; a non-empty output window arises
only from the terminating `RETURN`/`REVERT` statuses. -/
theorem halting_error_empty_output (tab : InstrTable) (sem : InstrSem)
    (code : List Nat) (msg_gas : Int) (fuel : Nat) (res : ExecResult)
    (hcost : ∀ op, 0 ≤ tab.gas_cost op) (hsem : SemFaithful sem)
    (hgas : 0 ≤ msg_gas)
    (hrun : baseline_execute tab sem code msg_gas fuel = some res)
    (hst : res.status ∈ haltingErrors) :
    res.output_data = [] ∧ res.gas_left = 0 := by
  simp only [baseline_execute, Option.map_eq_some'] at hrun
  rcases hrun with ⟨fs, hfs, hres⟩
  have hf := execLoop_final_facts tab sem code (build_jumpdest_map code)
    fuel (initialState msg_gas) fs hcost hsem hgas rfl hfs
  subst hres
  have hstatus : fs.status ∈ haltingErrors := hst
  have hnsr : ¬ (fs.status = StatusCode.SUCCESS ∨
      fs.status = StatusCode.REVERT) := by
    intro h
    rcases h with h | h <;> rw [h] at hstatus <;>
      simp [haltingErrors] at hstatus
  have hout : fs.output_size = 0 := by
    by_contra hne
    exact hnsr (hf.2.2 hne)
  constructor
  · simp [make_result, hout]
  · simp only [make_result]
    rw [if_neg hnsr]

/-- C4 (amended): a `PUSHn` whose `n` immediate bytes lie fully within the
code pushes their big-endian value and continues past the immediate; when
the immediate runs past the code end, nothing is pushed and the program
counter is set to the code end, so the dispatch loop terminates the frame
with its current status — the truncated push value is never observed. -/
theorem load_push_correct (len : Nat) (st : ExecutionState)
    (code : List Nat) (pos : Nat) :
    (pos + len ≤ code.length →
      load_push len st code pos =
        (pos + len,
          { st with stack := beLoad ((code.drop pos).take len) :: st.stack }))
    ∧ (code.length < pos + len → load_push len st code pos = (code.length, st))
    ∧ (∀ (tab : InstrTable) (sem : InstrSem) (jm : List Bool) (pc fuel : Nat)
        (st0 st1 : ExecutionState),
        pc < code.length →
        OP_PUSH1 ≤ code.getD pc 0 → code.getD pc 0 ≤ OP_PUSH32 →
        code.length < pc + 1 + (code.getD pc 0 - OP_PUSH1 + 1) →
        check_requirements tab st0 (code.getD pc 0) =
          (StatusCode.SUCCESS, st1) →
        execLoop tab sem code jm (fuel + 1) pc st0 = some st1) := by
  refine ⟨?_, ?_, ?_⟩
  · intro h
    rw [load_push, if_neg (by omega)]
  · intro h
    rw [load_push, if_pos h]
  · intro tab sem jm pc fuel st0 st1 hpc hlo hhi htr hcr
    have hlo' : (0x60 : Nat) ≤ code.getD pc 0 := hlo
    have hhi' : code.getD pc 0 ≤ (0x7f : Nat) := hhi
    have hstep : step tab sem code jm pc st0 = .next code.length st1 := by
      simp only [step, hcr]
      rw [if_neg (by simp)]
      rw [if_neg (by simp only [OP_STOP]; omega),
        if_neg (by simp only [OP_JUMP]; omega),
        if_neg (by simp only [OP_JUMPI]; omega),
        if_neg (by simp only [OP_PC]; omega),
        if_neg (by simp only [OP_GAS]; omega),
        if_neg (by simp only [OP_CODESIZE]; omega),
        if_neg (by simp only [OP_JUMPDEST]; omega),
        if_neg (by simp only [OP_POP]; omega),
        if_pos ⟨hlo, hhi⟩]
      rw [load_push, if_pos (by omega)]
    simp only [execLoop, if_pos hpc, hstep]
    exact execLoop_exit tab sem code jm fuel code.length st1 (by omega)

/-- C4 counterexample to the claim as stated: a `PUSH32` whose immediate
is truncated to the single byte `0xaa` would, per the claim, push the
left-aligned value `0xaa · 2^248`; `load_push` pushes nothing at all. -/
theorem load_push_truncated_counterexample :
    (load_push 32 (initialState 10) [0x7f, 0xaa] 1).2.stack = [] ∧
    (load_push 32 (initialState 10) [0x7f, 0xaa] 1).2.stack ≠
      [0xaa * 2 ^ 248] := by
  constructor
  · rfl
  · intro h
    rw [show (load_push 32 (initialState 10) [0x7f, 0xaa] 1).2.stack = []
      from rfl] at h
    exact List.noConfusion h

/-- C6: `RETURN`/`REVERT` take offset and size from the top two stack
slots; a failed memory charge terminates with `OUT_OF_GAS` and leaves the
output window untouched; otherwise `output_size` becomes the size, the
offset is recorded only for a non-empty output (an empty output keeps the
previous `output_offset`), the status becomes the terminating one, and a
`REVERT` frame reports its remaining `gas_left`. -/
theorem op_return_correct (sc : StatusCode) (st : ExecutionState) :
    (check_memory st (st.stack.getD 0 0) (st.stack.getD 1 0) = none →
      op_return sc st = { st with status := StatusCode.OUT_OF_GAS })
    ∧ (∀ st1,
        check_memory st (st.stack.getD 0 0) (st.stack.getD 1 0) = some st1 →
        st.stack.getD 1 0 ≠ 0 →
        op_return sc st =
          { st1 with
            output_size := st.stack.getD 1 0
            output_offset := st.stack.getD 0 0
            status := sc })
    ∧ (∀ st1,
        check_memory st (st.stack.getD 0 0) (st.stack.getD 1 0) = some st1 →
        st.stack.getD 1 0 = 0 →
        op_return sc st = { st1 with output_size := 0, status := sc } ∧
        st1.output_offset = st.output_offset)
    ∧ (∀ st1,
        check_memory st (st.stack.getD 0 0) (st.stack.getD 1 0) = some st1 →
        sc = StatusCode.REVERT →
        (make_result (op_return sc st)).gas_left = st1.gas_left) := by
  refine ⟨?_, ?_, ?_, ?_⟩
  · intro h
    simp only [List.getD_eq_getElem?_getD] at h
    simp [op_return, h]
  · intro st1 hsome hz
    simp only [List.getD_eq_getElem?_getD] at hsome hz ⊢
    simp [op_return, hsome, hz]
  · intro st1 hsome hz
    have hoff := (check_memory_some_fields st _ _ st1 hsome).2.1
    simp only [List.getD_eq_getElem?_getD] at hsome hz
    rw [hz] at hsome
    refine ⟨?_, hoff⟩
    simp [op_return, hsome, hz]
  · intro st1 hsome hrev
    subst hrev
    simp only [List.getD_eq_getElem?_getD] at hsome
    by_cases hz : st.stack[1]?.getD 0 = 0
    · rw [hz] at hsome
      simp [op_return, make_result, hsome, hz]
    · simp [op_return, make_result, hsome, hz]

theorem step_pop_inv (tab : InstrTable) (sem : InstrSem) (code : List Nat)
    (jm : List Bool) (pc : Nat) (st : ExecutionState) (pc' : Nat)
    (s1 : ExecutionState)
    (hpop : code.getD pc 0 = OP_POP)
    (hstep : step tab sem code jm pc st = .next pc' s1) :
    (check_requirements tab st OP_POP).1 = StatusCode.SUCCESS ∧
    pc' = pc + 1 ∧
    s1 = { st with
           gas_left := st.gas_left - tab.gas_cost OP_POP
           stack := st.stack.tail } := by
  by_cases hsucc : (check_requirements tab st OP_POP).1 = StatusCode.SUCCESS
  · have hc2 := cr_success_eq tab st OP_POP hsucc
    simp only [step, hpop] at hstep
    rw [if_neg (not_not_intro hsucc)] at hstep
    rw [if_neg (by decide), if_neg (by decide), if_neg (by decide),
      if_neg (by decide), if_neg (by decide), if_neg (by decide),
      if_neg (by decide), if_pos trivial] at hstep
    injection hstep with e1 e2
    refine ⟨hsucc, e1.symm, ?_⟩
    rw [← e2, hc2]
  · simp only [step, hpop] at hstep
    rw [if_pos hsucc] at hstep
    exact StepResult.noConfusion hstep

/-- C5: `JUMPI` pops exactly the destination and the condition, jumps iff
the condition is non-zero, and performs the destination-validity check
only when the branch is taken (the condition-zero path never consults the
jumpdest map); `JUMPI` with condition `0` has the same effect on stack,
memory, status and output window as `POP; POP`, differing only in the gas
charged. -/
theorem jumpi_correct (tab : InstrTable) (sem : InstrSem) (code : List Nat)
    (jm : List Bool) (pc : Nat) (st st1 : ExecutionState)
    (hop : code.getD pc 0 = OP_JUMPI)
    (hcr : check_requirements tab st OP_JUMPI = (StatusCode.SUCCESS, st1)) :
    (st1.stack.getD 1 0 = 0 →
      step tab sem code jm pc st =
        .next (pc + 1) { st1 with stack := st1.stack.tail.tail })
    ∧ (st1.stack.getD 1 0 ≠ 0 →
      step tab sem code jm pc st =
        .next (op_jump jm code.length st1).1
          { (op_jump jm code.length st1).2 with
            stack := (op_jump jm code.length st1).2.stack.tail })
    ∧ (∀ (code2 : List Nat) (pc2 pc1' pc2' : Nat) (s1 s2 : ExecutionState),
        st1.stack.getD 1 0 = 0 →
        code2.getD pc2 0 = OP_POP → code2.getD (pc2 + 1) 0 = OP_POP →
        step tab sem code2 jm pc2 st = .next pc1' s1 →
        step tab sem code2 jm (pc2 + 1) s1 = .next pc2' s2 →
        (s2.stack = st.stack.tail.tail ∧ s2.memory = st.memory ∧
         s2.status = st.status ∧ s2.output_offset = st.output_offset ∧
         s2.output_size = st.output_size ∧
         s2.gas_left = st.gas_left - 2 * tab.gas_cost OP_POP ∧
         step tab sem code jm pc st =
           .next (pc + 1) { st1 with stack := st1.stack.tail.tail } ∧
         { st1 with stack := st1.stack.tail.tail }.stack =
           st.stack.tail.tail ∧
         { st1 with stack := st1.stack.tail.tail }.memory = st.memory ∧
         { st1 with stack := st1.stack.tail.tail }.status = st.status ∧
         { st1 with stack := st1.stack.tail.tail }.output_offset =
           st.output_offset ∧
         { st1 with stack := st1.stack.tail.tail }.output_size =
           st.output_size ∧
         { st1 with stack := st1.stack.tail.tail }.gas_left =
           st.gas_left - tab.gas_cost OP_JUMPI)) := by
  have h1 : (check_requirements tab st OP_JUMPI).1 = StatusCode.SUCCESS := by
    rw [hcr]
  have h2 : (check_requirements tab st OP_JUMPI).2 = st1 := by rw [hcr]
  have hst1 : st1 =
      { st with gas_left := st.gas_left - tab.gas_cost OP_JUMPI } := by
    rw [← h2, cr_success_eq tab st OP_JUMPI h1]
  refine ⟨?_, ?_, ?_⟩
  · intro hcond
    simp only [step, hop, hcr]
    rw [if_neg (by simp), if_neg (by decide), if_neg (by decide),
      if_pos trivial, if_neg (not_not_intro hcond)]
  · intro hcond
    simp only [step, hop, hcr]
    rw [if_neg (by simp), if_neg (by decide), if_neg (by decide),
      if_pos trivial, if_pos hcond]
  · intro code2 pc2 pc1' pc2' s1 s2 hcond hpop0 hpop1 hs1 hs2
    have hJ : step tab sem code jm pc st =
        .next (pc + 1) { st1 with stack := st1.stack.tail.tail } := by
      simp only [step, hop, hcr]
      rw [if_neg (by simp), if_neg (by decide), if_neg (by decide),
        if_pos trivial, if_neg (not_not_intro hcond)]
    have hp1 := step_pop_inv tab sem code2 jm pc2 st pc1' s1 hpop0 hs1
    have hp2 :=
      step_pop_inv tab sem code2 jm (pc2 + 1) s1 pc2' s2 hpop1 hs2
    rw [hp1.2.2] at hp2
    rw [hst1] at hJ
    rw [hp2.2.2, hst1]
    refine ⟨by simp, by simp, by simp, by simp, by simp, by simp; omega,
      hJ, by simp, by simp, by simp, by simp, by simp, by simp⟩

/-- C10: `JUMP` pops exactly one stack item and `JUMPI` exactly two on
every path: `op_jump` removes the destination from the stack before any
validity decision (also when it fails with `BAD_JUMP_DESTINATION`), and
the dispatched `JUMP`/`JUMPI` steps change the stack height identically
whether or not the jump succeeds. -/
theorem jump_jumpi_stack_arity (tab : InstrTable) (sem : InstrSem)
    (code : List Nat) (jm : List Bool) (pc : Nat) (st st1 : ExecutionState) :
    (∀ (jm2 : List Bool) (L : Nat) (s : ExecutionState),
      (op_jump jm2 L s).2.stack = s.stack.tail)
    ∧ (code.getD pc 0 = OP_JUMP →
      check_requirements tab st OP_JUMP = (StatusCode.SUCCESS, st1) →
      ∃ pc' st', step tab sem code jm pc st = .next pc' st' ∧
        st'.stack = st.stack.tail)
    ∧ (code.getD pc 0 = OP_JUMPI →
      check_requirements tab st OP_JUMPI = (StatusCode.SUCCESS, st1) →
      ∃ pc' st', step tab sem code jm pc st = .next pc' st' ∧
        st'.stack = st.stack.tail.tail) := by
  refine ⟨?_, ?_, ?_⟩
  · intro jm2 L s
    simp only [op_jump]
    split_ifs <;> simp
  · intro hop hcr
    have hs1 : st1.stack = st.stack := by
      have h := (cr_fields tab st OP_JUMP).1
      rw [hcr] at h
      exact h
    have hstep : step tab sem code jm pc st =
        .next (op_jump jm code.length st1).1
          (op_jump jm code.length st1).2 := by
      simp only [step, hop, hcr]
      rw [if_neg (by simp), if_neg (by decide), if_pos trivial]
    refine ⟨_, _, hstep, ?_⟩
    rw [(op_jump_snd_fields jm code.length st1).2.2.2.2, hs1]
  · intro hop hcr
    have hs1 : st1.stack = st.stack := by
      have h := (cr_fields tab st OP_JUMPI).1
      rw [hcr] at h
      exact h
    by_cases hcond : st1.stack.getD 1 0 = 0
    · have hstep : step tab sem code jm pc st =
          .next (pc + 1) { st1 with stack := st1.stack.tail.tail } := by
        simp only [step, hop, hcr]
        rw [if_neg (by simp), if_neg (by decide), if_neg (by decide),
          if_pos trivial, if_neg (not_not_intro hcond)]
      refine ⟨_, _, hstep, ?_⟩
      simp [hs1]
    · have hstep : step tab sem code jm pc st =
          .next (op_jump jm code.length st1).1
            { (op_jump jm code.length st1).2 with
              stack := (op_jump jm code.length st1).2.stack.tail } := by
        simp only [step, hop, hcr]
        rw [if_neg (by simp), if_neg (by decide), if_neg (by decide),
          if_pos trivial, if_pos hcond]
      refine ⟨_, _, hstep, ?_⟩
      simp [(op_jump_snd_fields jm code.length st1).2.2.2.2, hs1]

/-! ## Witnesses: concrete evaluations of the theorems above -/

theorem sampleSem_faithful : SemFaithful sampleSem :=
  fun _ s => ⟨le_refl s.gas_left, fun h _ => h,
    fun h => StatusCode.noConfusion h, rfl, rfl⟩

theorem baseline_execute_gas_witness :
    0 ≤ ({ status := StatusCode.SUCCESS, gas_left := 4,
           output_data := [] } : ExecResult).gas_left ∧
    ({ status := StatusCode.SUCCESS, gas_left := 4,
       output_data := [] } : ExecResult).gas_left ≤ 5 :=
  (baseline_execute_gas_correct sampleTable sampleSem [0x00] 5 1
    { status := StatusCode.SUCCESS, gas_left := 4, output_data := [] }
    (fun _ => by norm_num [sampleTable]) sampleSem_faithful
    (by decide) (by decide)).2

theorem check_requirements_boundary_witness :
    check_requirements sampleTable (initialState 1) OP_JUMPDEST =
      (StatusCode.SUCCESS, { initialState 1 with gas_left := 0 }) :=
  (check_requirements_correct sampleTable (initialState 1)
      OP_JUMPDEST).2.2.2.2.2.1 rfl (by decide) (by decide) (by decide)

theorem jumpdest_map_witness :
    (build_jumpdest_map [0x60, 0x5b, 0x5b]).getD 2 false = true ∧
    (build_jumpdest_map [0x60, 0x5b, 0x5b]).getD 1 false = false := by
  have h := jumpdest_map_and_jump_correct [0x60, 0x5b, 0x5b]
  constructor
  · exact (h.1 2 (by decide)).mpr ⟨by decide, by decide⟩
  · by_contra hb
    have hb' : (build_jumpdest_map [0x60, 0x5b, 0x5b]).getD 1 false = true := by
      cases hx : (build_jumpdest_map [0x60, 0x5b, 0x5b]).getD 1 false
      · exact absurd hx hb
      · rfl
    exact absurd (by decide : insideImmediate [0x60, 0x5b, 0x5b] 1)
      ((h.1 1 (by decide)).mp hb').2

theorem load_push_witness :
    load_push 1 (initialState 5) [0x60, 0xaa] 1 =
      (2, { initialState 5 with stack := [0xaa] }) ∧
    load_push 32 (initialState 5) [0x7f, 0xaa] 1 = (2, initialState 5) :=
  ⟨((load_push_correct 1 (initialState 5) [0x60, 0xaa] 1).1
      (by decide)).trans (by decide),
   ((load_push_correct 32 (initialState 5) [0x7f, 0xaa] 1).2.1
      (by decide)).trans (by decide)⟩

theorem jumpi_witness :
    step sampleTable sampleSem [0x57] [] 0
        { gas_left := 10, stack := [7, 0, 3], memory := [],
          output_offset := 0, output_size := 0,
          status := StatusCode.SUCCESS } =
      .next 1 { gas_left := 9, stack := [3], memory := [],
                output_offset := 0, output_size := 0,
                status := StatusCode.SUCCESS } :=
  ((jumpi_correct sampleTable sampleSem [0x57] [] 0
      { gas_left := 10, stack := [7, 0, 3], memory := [],
        output_offset := 0, output_size := 0, status := StatusCode.SUCCESS }
      { gas_left := 9, stack := [7, 0, 3], memory := [],
        output_offset := 0, output_size := 0, status := StatusCode.SUCCESS }
      (by decide) (by decide)).1 (by decide)).trans (by decide)

theorem op_return_witness :
    op_return StatusCode.REVERT
        { gas_left := 100, stack := [0, 4], memory := [],
          output_offset := 0, output_size := 0,
          status := StatusCode.SUCCESS } =
      { gas_left := 97, stack := [0, 4], memory := List.replicate 32 0,
        output_offset := 0, output_size := 4,
        status := StatusCode.REVERT } :=
  ((op_return_correct StatusCode.REVERT
      { gas_left := 100, stack := [0, 4], memory := [],
        output_offset := 0, output_size := 0,
        status := StatusCode.SUCCESS }).2.1
      { gas_left := 97, stack := [0, 4], memory := List.replicate 32 0,
        output_offset := 0, output_size := 0,
        status := StatusCode.SUCCESS }
      (by decide) (by decide)).trans (by decide)

theorem halting_error_witness :
    ({ status := StatusCode.INVALID_INSTRUCTION, gas_left := 0,
       output_data := [] } : ExecResult).output_data = [] ∧
    ({ status := StatusCode.INVALID_INSTRUCTION, gas_left := 0,
       output_data := [] } : ExecResult).gas_left = 0 :=
  halting_error_empty_output sampleTable sampleSem [0xfe] 5 1
    { status := StatusCode.INVALID_INSTRUCTION, gas_left := 0,
      output_data := [] }
    (fun _ => by norm_num [sampleTable]) sampleSem_faithful
    (by decide) (by decide) (by decide)

theorem dispatch_covers_witness : (0x01 : Nat) ∈ dispatchCases :=
  dispatch_covers_defined_opcodes.2 specTable (initialState 0) 0x01
    (fun o h => of_decide_eq_true h) (by decide)

theorem jump_arity_witness :
    ∃ pc' st', step sampleTable sampleSem [0x56] [] 0
        { gas_left := 10, stack := [0], memory := [], output_offset := 0,
          output_size := 0, status := StatusCode.SUCCESS } =
        .next pc' st' ∧
      st'.stack = ({ gas_left := 10, stack := [0], memory := [],
                     output_offset := 0, output_size := 0,
                     status := StatusCode.SUCCESS } : ExecutionState).stack.tail :=
  (jump_jumpi_stack_arity sampleTable sampleSem [0x56] [] 0
      { gas_left := 10, stack := [0], memory := [], output_offset := 0,
        output_size := 0, status := StatusCode.SUCCESS }
      { gas_left := 9, stack := [0], memory := [], output_offset := 0,
        output_size := 0, status := StatusCode.SUCCESS }).2.1
    (by decide) (by decide)
